import Mathlib

/-
Verification of the chat-relay server (src/unnamed/part_000, the Go file
`main.go`).  The Dispatch Engine is `ChatServer.run`: a single loop that
consumes `register`, `unregister` and `broadcast` events one at a time.
We embed one iteration of that loop as the function `step` below, acting on
an explicit server state; the messages that `run` itself re-submits on the
broadcast channel (join / leave / roster lines) are processed immediately in
order, matching the serialized single-consumer event stream.  Machine-level
concurrency (goroutine scheduling, channel blocking) is not modelled; every
claim below is about the serialized event semantics.

State components, traced back to the source:
  * `clients` models the map `server.clients` together with each client's
    buffered channel `client.messages` (capacity 256, main.go line 131);
    the list order stands in for map iteration order.
  * `log` records every text the engine consumed from `server.broadcast`,
    in processing order (the global broadcast order).
  * `closed` records, in order, the clients for which the engine executed
    `close(client.messages); client.conn.Close()` (lines 63-65 of the
    unregister case and lines 84-86 of the full-queue branch).
-/

/-- A connected participant: `Client` from main.go lines 21-25.  The opaque
connection handle / channel identity is modelled by the `id` field (Go uses
pointer identity); `name` is the display name. -/
structure Client where
  id : Nat
  name : String
deriving DecidableEq, Repr

/-- The Dispatch Engine state (the `ChatServer` struct, lines 27-33, plus the
two observation traces `log` and `closed` described in the header comment). -/
structure ChatServer where
  clients : List (Client × List String)
  log : List String
  closed : List Client
deriving DecidableEq, Repr

/-- The three event kinds consumed by `ChatServer.run` (the `register`,
`unregister` and `broadcast` channels, lines 29-31). -/
inductive Event where
  | register (c : Client)
  | deregister (c : Client)
  | broadcast (t : String)
deriving DecidableEq, Repr

/-- Byte count of one character under UTF-8, mirroring how Go strings store
text; used to model Go `len` on strings. -/
def charBytes (c : Char) : Nat :=
  if c.val ≤ 0x7F then 1 else if c.val ≤ 0x7FF then 2
  else if c.val ≤ 0xFFFF then 3 else 4

/-- Go `len(s)` for a string: the number of UTF-8 bytes, not characters. -/
def goLen (s : String) : Nat := (s.data.map charBytes).sum

/-- The character class trimmed by Go `unicode.IsSpace`: the Latin-1 cases
(space, tab, newline, vertical tab, form feed, carriage return, NEL, NBSP)
together with the remaining Unicode White_Space characters U+1680,
U+2000 through U+200A, U+2028, U+2029, U+202F, U+205F and U+3000. -/
def goIsSpace (c : Char) : Bool :=
  c = ' ' || c = '\t' || c = '\n' || c = '\x0b' ||
  c = '\x0c' || c = '\r' || c = '\u0085' || c = '\u00A0' ||
  c = '\u1680' || c = '\u2000' || c = '\u2001' || c = '\u2002' ||
  c = '\u2003' || c = '\u2004' || c = '\u2005' || c = '\u2006' ||
  c = '\u2007' || c = '\u2008' || c = '\u2009' || c = '\u200A' ||
  c = '\u2028' || c = '\u2029' || c = '\u202F' ||
  c = '\u205F' || c = '\u3000'

/-- Go `strings.TrimSpace`: drop leading and trailing whitespace. -/
def goTrim (s : String) : String :=
  ⟨((s.data.dropWhile goIsSpace).reverse.dropWhile goIsSpace).reverse⟩

/-- Go `strings.Join(elems, sep)` (used by `sendUserList`, line 103). -/
def goJoin (elems : List String) (sep : String) : String :=
  match elems with
  | [] => ""
  | x :: xs => xs.foldl (fun acc e => acc ++ sep ++ e) x

/-- `MAX_CLIENTS` from main.go line 18. -/
def MAX_CLIENTS : Nat := 50

/-- The join announcement, line 53. -/
def joinText (n : String) : String := "*** " ++ n ++ " has joined the chat ***"

/-- The leave announcement, line 70. -/
def leaveText (n : String) : String := "*** " ++ n ++ " has left the chat ***"

/-- The roster announcement built by `sendUserList`, line 103. -/
def rosterText (users : List String) : String :=
  "*** Online users: " ++ goJoin users ", " ++ " ***"

/-- Whether a non-blocking send on `client.messages` succeeds: the channel
buffer (capacity 256, line 131) has free space. -/
def hasRoom (q : List String) : Bool := decide (q.length < 256)

/-- The fan-out loop of the broadcast case (lines 79-88): walk the live set;
a client with queue room gets the message appended (FIFO), a client with a
full queue is dropped.  Returns the surviving clients and, in order, the
dropped clients (whose queue and connection the engine closed). -/
def deliver (t : String) : List (Client × List String) →
    List (Client × List String) × List Client
  | [] => ([], [])
  | p :: rest =>
    let r := deliver t rest
    if hasRoom p.2 then ((p.1, p.2 ++ [t]) :: r.1, r.2)
    else (r.1, p.1 :: r.2)

/-- One pass of the `case message := <-server.broadcast` branch
(lines 77-89): fan the text out, record it in the global order, record the
engine-side closes of the dropped clients. -/
def applyBroadcast (t : String) (st : ChatServer) : ChatServer :=
  let r := deliver t st.clients
  { clients := r.1, log := st.log ++ [t], closed := st.closed ++ r.2 }

/-- `ChatServer.sendUserList` (lines 94-106): collect the active names and,
if there is at least one, submit the roster line as a broadcast. -/
def sendUserList (st : ChatServer) : ChatServer :=
  let users := st.clients.map (fun p => p.1.name)
  if 0 < users.length then applyBroadcast (rosterText users) st else st

/-- The map insert `server.clients[client] = true` (line 49): a no-op when
the client is already a key, otherwise added with its (fresh, empty) queue. -/
def addClient (c : Client) (st : ChatServer) : ChatServer :=
  if st.clients.any (fun p => p.1 = c) then st
  else { st with clients := st.clients ++ [(c, [])] }

/-- The guarded teardown of the unregister case (lines 62-66): only when the
client is currently a member is it deleted and are its queue and connection
closed. -/
def teardownIfMember (c : Client) (st : ChatServer) : ChatServer :=
  if st.clients.any (fun p => p.1 = c) then
    { st with clients := st.clients.filter (fun p => !(p.1 = c : Bool)),
              closed := st.closed ++ [c] }
  else st

/-- One iteration of `ChatServer.run` (lines 44-92) on one event.  Note that
in the source the leave announcement and the roster refresh of the
unregister case (lines 70-75) sit outside the membership guard, so they run
even for a non-member. -/
def step (st : ChatServer) : Event → ChatServer
  | .register c =>
    sendUserList (applyBroadcast (joinText c.name) (addClient c st))
  | .deregister c =>
    sendUserList (applyBroadcast (leaveText c.name) (teardownIfMember c st))
  | .broadcast t => applyBroadcast t st

/-- The engine's start state: empty live set, nothing processed, nothing
closed (`NewChatServer`, lines 35-42). -/
def initState : ChatServer := { clients := [], log := [], closed := [] }

/-- Run the Dispatch Engine over a whole event sequence. -/
def runEvents (evs : List Event) : ChatServer := evs.foldl step initState

/-- Count of engine-side closes of a client's connection handle: the
unregister case and the full-queue branch both run `client.conn.Close()`
exactly when they record the client in `closed`. -/
def engineCloses (st : ChatServer) (c : Client) : Nat := st.closed.count c

/-- Closes performed by `ChatServer.writePump` (lines 190-206): the pump has
`defer client.conn.Close()` (line 191) and returns when `client.messages` is
closed, i.e. exactly when the engine tore the client down; so in any
execution free of network write errors the pump closes the handle once more
for every torn-down client.  (`handleClient` line 109 also defers a close,
but `handleClient` blocks forever on the empty select at line 156, so that
deferred close never runs.) -/
def pumpCloses (st : ChatServer) (c : Client) : Nat :=
  if c ∈ st.closed then 1 else 0

/-- Total number of times a client's connection handle is closed, in an
execution with no network write errors. -/
def totalCloses (st : ChatServer) (c : Client) : Nat :=
  engineCloses st c + pumpCloses st c

/-- Outcome of `ChatServer.handleClient` (lines 108-157) on one accepted
connection: the resulting engine state, the lines written directly to this
connection, and the registered client (if admission succeeded). -/
structure Handshake where
  st : ChatServer
  written : List String
  admitted : Option Client
deriving DecidableEq, Repr

/-- The welcome banner enqueued on the new client's own queue (line 148). -/
def welcomeText (n : String) : String :=
  "=== Welcome to Go Chat Server ===\nYour username: " ++ n ++
  "\nType \x27exit\x27 to quit\n===================================\n\n"

/-- The blocking send `client.messages <- welcomeMsg` (line 149): append to
the named client's queue. -/
def enqueueTo (c : Client) (t : String) (st : ChatServer) : ChatServer :=
  { st with clients :=
      st.clients.map (fun p => if p.1 = c then (p.1, p.2 ++ [t]) else p) }

/-- `ChatServer.handleClient` (lines 108-157) in the sequential (non-racing)
case: prompt for a name, trim it, validate its Go length (bytes), check the
capacity snapshot, and on success submit the Register event and enqueue the
welcome banner.  `fresh` models the identity of the newly allocated client
struct (line 128); `raw` is the reply line read at line 115. -/
def handleClient (st : ChatServer) (fresh : Nat) (raw : String) : Handshake :=
  let name := goTrim raw
  if goLen name < 2 ∨ 32 < goLen name then
    { st := st,
      written := ["Enter your username: ", "Username must be 2-32 characters.\n"],
      admitted := none }
  else if MAX_CLIENTS ≤ st.clients.length then
    { st := st,
      written := ["Enter your username: ", "Server is full. Try again later.\n"],
      admitted := none }
  else
    let c : Client := { id := fresh, name := name }
    { st := enqueueTo c (welcomeText name) (step st (.register c)),
      written := ["Enter your username: "],
      admitted := some c }

/-- `ChatServer.readPump` (lines 159-188) over the sequence of lines read
from the connection, each paired with the wall-clock reading `HH:MM:SS` at
receipt; the list ending models EOF / read failure.  Returns the events the
pump submits, in order: each trimmed non-empty non-exit line becomes one
Broadcast, and the deferred `server.unregister <- client` (lines 160-162)
fires exactly once when the loop ends. -/
def readPumpEvents (c : Client) : List (String × String) → List Event
  | [] => [.deregister c]
  | (hms, line) :: rest =>
    let message := goTrim line
    if message = "exit" then [.deregister c]
    else if 0 < goLen message then
      .broadcast ("[" ++ hms ++ "] " ++ c.name ++ ": " ++ message) ::
        readPumpEvents c rest
    else readPumpEvents c rest

/-- The surviving side of the fan-out loop, as a filterMap over the live
set: a client with room keeps its place with the text appended, a client
without room disappears. -/
theorem deliver_fst (t : String) (l : List (Client × List String)) :
    (deliver t l).1 = l.filterMap
      (fun p => if hasRoom p.2 then some (p.1, p.2 ++ [t]) else none) := by
  induction l with
  | nil => rfl
  | cons p rest ih =>
    cases h : hasRoom p.2 <;> simp [deliver, List.filterMap_cons, h, ih]

/-- The dropped side of the fan-out loop: exactly the clients whose queue
was full, in live-set order. -/
theorem deliver_snd (t : String) (l : List (Client × List String)) :
    (deliver t l).2 = (l.filter (fun p => !hasRoom p.2)).map Prod.fst := by
  induction l with
  | nil => rfl
  | cons p rest ih =>
    cases h : hasRoom p.2 <;> simp [deliver, List.filter_cons, h, ih]

/-- C2: processing Broadcast(t) attempts a non-blocking enqueue on every
active Session's queue (capacity 256): every Session with free space gets
`t` appended in FIFO position; every Session with a full queue is removed
from the live set and recorded as having its queue and connection released;
the processed text is appended to the global order, so subsequent broadcasts
are fanned out to exactly the surviving members by the same rule. -/
theorem broadcast_fanout_backpressure (st : ChatServer) (t : String) :
    (applyBroadcast t st).clients = st.clients.filterMap
        (fun p => if hasRoom p.2 then some (p.1, p.2 ++ [t]) else none)
  ∧ (applyBroadcast t st).closed
      = st.closed ++ (st.clients.filter (fun p => !hasRoom p.2)).map Prod.fst
  ∧ (applyBroadcast t st).log = st.log ++ [t] := by
  refine ⟨?_, ?_, rfl⟩
  · show (deliver t st.clients).1 = _
    exact deliver_fst t st.clients
  · show st.closed ++ (deliver t st.clients).2 = _
    rw [deliver_snd]

/-- C9: when a Session is dropped during a Broadcast step because its queue
is full, nothing else changes: the surviving clients and their queues are
exactly those obtained had the dropped Session not existed, the only text
recorded in the global order is the broadcast itself (no leave announcement,
no roster update), and the engine releases exactly the dropped client's
queue and connection in addition to the other full ones. -/
theorem backpressure_drop_is_silent (pre post : List (Client × List String))
    (c : Client) (q : List String) (t : String) (lg : List String)
    (cl : List Client) (h : hasRoom q = false) :
    (applyBroadcast t ⟨pre ++ (c, q) :: post, lg, cl⟩).clients
      = (applyBroadcast t ⟨pre ++ post, lg, cl⟩).clients
  ∧ (applyBroadcast t ⟨pre ++ (c, q) :: post, lg, cl⟩).log = lg ++ [t]
  ∧ (applyBroadcast t ⟨pre ++ (c, q) :: post, lg, cl⟩).closed
      = cl ++ ((pre.filter (fun p => !hasRoom p.2)).map Prod.fst
          ++ c :: ((post.filter (fun p => !hasRoom p.2)).map Prod.fst)) := by
  refine ⟨?_, rfl, ?_⟩
  · show (deliver t (pre ++ (c, q) :: post)).1 = (deliver t (pre ++ post)).1
    rw [deliver_fst, deliver_fst, List.filterMap_append, List.filterMap_append,
      List.filterMap_cons]
    simp [h]
  · show cl ++ (deliver t (pre ++ (c, q) :: post)).2 = _
    rw [deliver_snd, List.filter_append, List.filter_cons]
    simp [h]

set_option maxRecDepth 40000 in
/-- Witness for `backpressure_drop_is_silent`: one member with an empty
queue, one stalled member holding 256 undelivered lines. -/
theorem backpressure_drop_is_silent_witness :
    hasRoom (List.replicate 256 "m") = false
  ∧ (applyBroadcast "hi"
        ⟨[(⟨0, "alice"⟩, [])] ++ (⟨1, "bob"⟩, List.replicate 256 "m") :: [],
          [], []⟩).clients
      = (applyBroadcast "hi" ⟨[(⟨0, "alice"⟩, [])] ++ [], [], []⟩).clients :=
  ⟨by decide,
    (backpressure_drop_is_silent [(⟨0, "alice"⟩, [])] [] ⟨1, "bob"⟩
      (List.replicate 256 "m") "hi" [] [] (by decide)).1⟩

/-- Counterexample to C1: in the source the leave announcement and the
roster refresh sit outside the membership guard of the unregister case, so
deregistering the non-member bob from a room holding only alice changes the
emitted broadcast text (and alice's queue), and deregistering alice twice
emits a second leave announcement, giving a different end state than
deregistering her once. -/
theorem dereg_nonmember_not_noop_cex :
    (step (runEvents [Event.register ⟨0, "alice"⟩])
        (Event.deregister ⟨1, "bob"⟩)).log
      ≠ (runEvents [Event.register ⟨0, "alice"⟩]).log
  ∧ runEvents [Event.register ⟨0, "alice"⟩, Event.deregister ⟨0, "alice"⟩,
        Event.deregister ⟨0, "alice"⟩]
      ≠ runEvents [Event.register ⟨0, "alice"⟩, Event.deregister ⟨0, "alice"⟩] := by
  decide

/-- C1 amended: processing Deregister(s) when s is not a member performs no
teardown — the deregister branch leaves the live set, the queues and the
close trace exactly as a pure broadcast step would — but it is not a no-op:
the engine still broadcasts the leave announcement (and then a roster line
when the room is non-empty), so the second of two Deregister submissions
for the same Session produces a duplicate leave announcement. -/
theorem dereg_nonmember_amended (st : ChatServer) (c : Client)
    (h : st.clients.any (fun p => p.1 = c) = false) :
    step st (Event.deregister c)
      = sendUserList (applyBroadcast (leaveText c.name) st)
  ∧ ∃ tail, (step st (Event.deregister c)).log
      = st.log ++ leaveText c.name :: tail := by
  have h1 : step st (Event.deregister c)
      = sendUserList (applyBroadcast (leaveText c.name) st) := by
    show sendUserList (applyBroadcast (leaveText c.name) (teardownIfMember c st)) = _
    rw [teardownIfMember, if_neg]
    simp [h]
  refine ⟨h1, ?_⟩
  rw [h1, sendUserList]
  split
  · exact ⟨[rosterText ((applyBroadcast (leaveText c.name) st).clients.map
        (fun p => p.1.name))], by simp [applyBroadcast]⟩
  · exact ⟨[], by simp [applyBroadcast]⟩

/-- Witness for `dereg_nonmember_amended`: bob is not a member of the
one-member room holding alice. -/
theorem dereg_nonmember_amended_witness :
    step (runEvents [Event.register ⟨0, "alice"⟩]) (Event.deregister ⟨1, "bob"⟩)
      = sendUserList (applyBroadcast (leaveText "bob")
          (runEvents [Event.register ⟨0, "alice"⟩]))
  ∧ ∃ tail,
      (step (runEvents [Event.register ⟨0, "alice"⟩])
          (Event.deregister ⟨1, "bob"⟩)).log
        = (runEvents [Event.register ⟨0, "alice"⟩]).log
            ++ leaveText "bob" :: tail :=
  dereg_nonmember_amended (runEvents [Event.register ⟨0, "alice"⟩])
    ⟨1, "bob"⟩ (by decide)

/-- A string has Go length zero exactly when it is empty (every character
occupies at least one UTF-8 byte). -/
theorem goLen_eq_zero_iff (s : String) : goLen s = 0 ↔ s = "" := by
  constructor
  · intro h
    cases s with
    | mk data =>
      cases data with
      | nil => rfl
      | cons a as =>
        exfalso
        have h1 : 1 ≤ charBytes a := by unfold charBytes; split_ifs <;> omega
        simp only [goLen, List.map_cons, List.sum_cons] at h
        omega
  · intro h; subst h; rfl

/-- The inbound pump submits its Deregister exactly once, whatever the
client sends: the deferred `server.unregister <- client` fires on the one
exit from the read loop. -/
theorem readPumpEvents_dereg_once (c : Client)
    (lines : List (String × String)) :
    (readPumpEvents c lines).count (Event.deregister c) = 1 := by
  induction lines with
  | nil => simp [readPumpEvents]
  | cons p rest ih =>
    simp only [readPumpEvents]
    split
    · simp
    · split
      · rw [List.count_cons]
        simp [ih]
      · exact ih

/-- Counterexample to C4: the line `"  exit  "` is non-empty and is not the
literal `"exit"`, so by C4 it should produce exactly one Broadcast; instead
the pump (which trims before comparing) stops and submits only the
Deregister. -/
theorem readpump_literal_exit_cex :
    "  exit  " ≠ "exit"
  ∧ "  exit  " ≠ ""
  ∧ readPumpEvents ⟨0, "bob"⟩ [("14:05:09", "  exit  ")]
      = [Event.deregister ⟨0, "bob"⟩] := by
  decide

/-- C4 amended: the pump dispatches on the whitespace-trimmed content of
each received line: when it trims to `"exit"` the pump stops, submitting no
Broadcast and exactly one Deregister; when it trims to empty the line is
silently ignored; otherwise exactly one Broadcast
`"[HH:MM:SS] name: trimmed-text"` is submitted; and over any whole input
sequence exactly one Deregister is submitted. -/
theorem readpump_line_protocol (c : Client) (hms line : String)
    (rest : List (String × String)) :
    readPumpEvents c ((hms, line) :: rest)
      = (if goTrim line = "exit" then [Event.deregister c]
         else if goTrim line = "" then readPumpEvents c rest
         else Event.broadcast
                ("[" ++ hms ++ "] " ++ c.name ++ ": " ++ goTrim line)
              :: readPumpEvents c rest)
  ∧ (readPumpEvents c ((hms, line) :: rest)).count (Event.deregister c) = 1 := by
  refine ⟨?_, readPumpEvents_dereg_once c ((hms, line) :: rest)⟩
  simp only [readPumpEvents]
  by_cases h1 : goTrim line = "exit"
  · simp [h1]
  · rw [if_neg h1, if_neg h1]
    by_cases h2 : goTrim line = ""
    · have h3 : ¬ 0 < goLen (goTrim line) := by
        rw [h2]; decide
      rw [if_neg h3, if_pos h2]
    · have h3 : 0 < goLen (goTrim line) :=
        Nat.pos_of_ne_zero (fun h0 => h2 ((goLen_eq_zero_iff _).mp h0))
      rw [if_pos h3, if_neg h2]

/-- A line consisting only of whitespace trims to the empty string. -/
theorem goTrim_all_space (line : String)
    (h : line.data.all goIsSpace = true) : goTrim line = "" := by
  unfold goTrim
  have h1 : line.data.dropWhile goIsSpace = [] := by
    rw [List.dropWhile_eq_nil_iff]
    intro x hx
    exact List.all_eq_true.mp h x hx
  rw [h1]
  rfl

/-- C10: the inbound pump trims surrounding whitespace before interpreting
a line: a whitespace-only line is ignored like an empty one; a line whose
trimmed content is exactly `"exit"` stops the pump without any Broadcast
(only the Deregister is submitted); any other line produces a Broadcast
carrying the trimmed content, not the raw line. -/
theorem readpump_trims_lines (c : Client) (hms line : String)
    (rest : List (String × String)) :
    (line.data.all goIsSpace = true →
        readPumpEvents c ((hms, line) :: rest) = readPumpEvents c rest)
  ∧ (goTrim line = "exit" →
        readPumpEvents c ((hms, line) :: rest) = [Event.deregister c])
  ∧ (goTrim line ≠ "exit" → goTrim line ≠ "" →
        readPumpEvents c ((hms, line) :: rest)
          = Event.broadcast
              ("[" ++ hms ++ "] " ++ c.name ++ ": " ++ goTrim line)
            :: readPumpEvents c rest) := by
  refine ⟨?_, ?_, ?_⟩
  · intro h
    have h2 : goTrim line = "" := goTrim_all_space line h
    simp only [readPumpEvents]
    have hx : ¬ goTrim line = "exit" := by rw [h2]; decide
    have h3 : ¬ 0 < goLen (goTrim line) := by rw [h2]; decide
    rw [if_neg hx, if_neg h3]
  · intro h
    simp only [readPumpEvents]
    rw [if_pos h]
  · intro h1 h2
    simp only [readPumpEvents]
    have h3 : 0 < goLen (goTrim line) :=
      Nat.pos_of_ne_zero (fun h0 => h2 ((goLen_eq_zero_iff _).mp h0))
    rw [if_neg h1, if_pos h3]

/-- Witness for `readpump_trims_lines`: a line of ideographic space, tab,
EM space and space is ignored, an EM-space-padded exit line ends the
session, a padded chat line is broadcast trimmed. -/
theorem readpump_trims_lines_witness :
    readPumpEvents ⟨0, "cara"⟩ [("09:00:00", "\u3000\t\u2003 ")]
      = readPumpEvents ⟨0, "cara"⟩ []
  ∧ readPumpEvents ⟨0, "cara"⟩ [("09:00:00", "\u2003exit ")]
      = [Event.deregister ⟨0, "cara"⟩]
  ∧ readPumpEvents ⟨0, "cara"⟩ [("09:00:00", " hi ")]
      = Event.broadcast
          ("[" ++ "09:00:00" ++ "] " ++ Client.name ⟨0, "cara"⟩ ++ ": "
            ++ goTrim " hi ")
        :: readPumpEvents ⟨0, "cara"⟩ [] :=
  ⟨(readpump_trims_lines ⟨0, "cara"⟩ "09:00:00" "\u3000\t\u2003 " []).1
     (by decide),
   (readpump_trims_lines ⟨0, "cara"⟩ "09:00:00" "\u2003exit " []).2.1
     (by decide),
   (readpump_trims_lines ⟨0, "cara"⟩ "09:00:00" " hi " []).2.2
     (by decide) (by decide)⟩

/-- Counterexample to C7: the handshake reply is the single character
`"é"`, whose whitespace-trimmed length is 1 character, yet the Acceptor
does not write the error line and registers the client — the source checks
Go `len`, which counts UTF-8 bytes (2 for `"é"`), not characters. -/
theorem name_length_chars_cex :
    (goTrim "é").data.length = 1
  ∧ (handleClient initState 0 "é").admitted = some ⟨0, "é"⟩
  ∧ (handleClient initState 0 "é").written = ["Enter your username: "] := by
  decide

/-- C7 amended: for every handshake reply whose whitespace-trimmed UTF-8
byte length is below 2 or above 32 (the source measures Go `len`, bytes,
not characters), the Acceptor writes the error line
`"Username must be 2-32 characters.\n"`, never registers, and leaves the
engine state (so in particular the live-set size) unchanged. -/
theorem name_length_bytes (st : ChatServer) (fresh : Nat) (raw : String)
    (h : goLen (goTrim raw) < 2 ∨ 32 < goLen (goTrim raw)) :
    (handleClient st fresh raw).written
      = ["Enter your username: ", "Username must be 2-32 characters.\n"]
  ∧ (handleClient st fresh raw).st = st
  ∧ (handleClient st fresh raw).admitted = none := by
  have h1 : handleClient st fresh raw
      = { st := st,
          written := ["Enter your username: ",
            "Username must be 2-32 characters.\n"],
          admitted := none } := by
    unfold handleClient
    rw [if_pos h]
  rw [h1]
  exact ⟨rfl, rfl, rfl⟩

/-- Witness for `name_length_bytes`: the one-byte reply `"a"`. -/
theorem name_length_bytes_witness :
    (handleClient initState 7 "a").written
      = ["Enter your username: ", "Username must be 2-32 characters.\n"]
  ∧ (handleClient initState 7 "a").st = initState
  ∧ (handleClient initState 7 "a").admitted = none :=
  name_length_bytes initState 7 "a" (by decide)

/-- A member whose queue has room survives a broadcast step with the text
appended at the tail of its queue. -/
theorem applyBroadcast_mem (t : String) {st : ChatServer}
    {p : Client × List String} (hp : p ∈ st.clients)
    (hr : hasRoom p.2 = true) :
    (p.1, p.2 ++ [t]) ∈ (applyBroadcast t st).clients := by
  show _ ∈ (deliver t st.clients).1
  rw [deliver_fst]
  exact List.mem_filterMap.mpr ⟨p, hp, by simp [hr]⟩

/-- C3: processing Register(s) for a fresh Session adds it to the live set
and emits exactly two Broadcast events, in order: first the join
announcement, then the roster announcement listing the active display names
joined by comma-and-space (the roster is always emitted here, because the
set is non-empty after a registration). -/
theorem register_announcements (st : ChatServer) (c : Client)
    (h : st.clients.any (fun p => p.1 = c) = false) :
    (step st (Event.register c)).log
      = st.log ++ [joinText c.name,
          rosterText
            ((applyBroadcast (joinText c.name) (addClient c st)).clients.map
              (fun p => p.1.name))]
  ∧ (step st (Event.register c)).clients.any (fun p => p.1 = c) = true := by
  have hadd : addClient c st = { st with clients := st.clients ++ [(c, [])] } := by
    unfold addClient
    rw [if_neg]
    simp [h]
  have hmem : (c, ([] : List String)) ∈ (addClient c st).clients := by
    rw [hadd]
    exact List.mem_append_right _ (List.mem_singleton_self _)
  have hmid : (c, [joinText c.name])
      ∈ (applyBroadcast (joinText c.name) (addClient c st)).clients := by
    have h2 := applyBroadcast_mem (joinText c.name) hmem rfl
    simpa using h2
  have husers : 0 < ((applyBroadcast (joinText c.name)
      (addClient c st)).clients.map (fun p => p.1.name)).length := by
    rw [List.length_map]
    exact List.length_pos.mpr (List.ne_nil_of_mem hmid)
  have hsend : sendUserList (applyBroadcast (joinText c.name) (addClient c st))
      = applyBroadcast
          (rosterText
            ((applyBroadcast (joinText c.name) (addClient c st)).clients.map
              (fun p => p.1.name)))
          (applyBroadcast (joinText c.name) (addClient c st)) := by
    unfold sendUserList
    rw [if_pos husers]
  constructor
  · show (sendUserList (applyBroadcast (joinText c.name) (addClient c st))).log = _
    rw [hsend]
    show ((applyBroadcast (joinText c.name) (addClient c st)).log ++ [_]) = _
    have hlog : (applyBroadcast (joinText c.name) (addClient c st)).log
        = st.log ++ [joinText c.name] := by
      show (addClient c st).log ++ [joinText c.name] = _
      rw [hadd]
    rw [hlog, List.append_assoc]
    rfl
  · show (sendUserList (applyBroadcast (joinText c.name)
      (addClient c st))).clients.any (fun p => p.1 = c) = true
    rw [hsend]
    have hsurv := applyBroadcast_mem
      (rosterText
        ((applyBroadcast (joinText c.name) (addClient c st)).clients.map
          (fun p => p.1.name)))
      hmid rfl
    exact List.any_eq_true.mpr ⟨_, hsurv, by simp⟩

/-- Witness for `register_announcements`: alice registers in an empty
room. -/
theorem register_announcements_witness :
    (step initState (Event.register ⟨0, "alice"⟩)).log
      = initState.log ++ [joinText "alice",
          rosterText
            ((applyBroadcast (joinText "alice")
              (addClient ⟨0, "alice"⟩ initState)).clients.map
                (fun p => p.1.name))]
  ∧ (step initState (Event.register ⟨0, "alice"⟩)).clients.any
      (fun p => p.1 = (⟨0, "alice"⟩ : Client)) = true :=
  register_announcements initState ⟨0, "alice"⟩ (by decide)

/-- A broadcast step never grows the live set. -/
theorem applyBroadcast_length_le (t : String) (st : ChatServer) :
    (applyBroadcast t st).clients.length ≤ st.clients.length := by
  show (deliver t st.clients).1.length ≤ _
  rw [deliver_fst]
  exact List.length_filterMap_le _ _

/-- A roster refresh never grows the live set. -/
theorem sendUserList_length_le (st : ChatServer) :
    (sendUserList st).clients.length ≤ st.clients.length := by
  simp only [sendUserList]
  split
  · exact applyBroadcast_length_le _ _
  · exact Nat.le_refl _

/-- Processing one Register grows the live set by at most one. -/
theorem step_register_length_le (st : ChatServer) (c : Client) :
    (step st (Event.register c)).clients.length ≤ st.clients.length + 1 := by
  have h1 : (addClient c st).clients.length ≤ st.clients.length + 1 := by
    unfold addClient
    split
    · exact Nat.le_succ _
    · simp
  calc (step st (Event.register c)).clients.length
      ≤ (applyBroadcast (joinText c.name) (addClient c st)).clients.length :=
        sendUserList_length_le _
    _ ≤ (addClient c st).clients.length := applyBroadcast_length_le _ _
    _ ≤ st.clients.length + 1 := h1

/-- Enqueueing the welcome banner does not change the live-set size. -/
theorem enqueueTo_length (c : Client) (t : String) (st : ChatServer) :
    (enqueueTo c t st).clients.length = st.clients.length := by
  show (st.clients.map _).length = _
  exact List.length_map _ _

/-- C6: in the sequential (non-racing) case, a handshake arriving when the
live set already holds the configured capacity (50) never registers and
leaves the engine state unchanged; when the proposed name is valid it is
turned away with the server-full line; and immediately after any successful
registration the live-set size is at most the capacity. -/
theorem capacity_check_nominal (st : ChatServer) (fresh : Nat) (raw : String) :
    (MAX_CLIENTS ≤ st.clients.length →
        (handleClient st fresh raw).admitted = none
      ∧ (handleClient st fresh raw).st = st)
  ∧ (MAX_CLIENTS ≤ st.clients.length →
      ¬ (goLen (goTrim raw) < 2 ∨ 32 < goLen (goTrim raw)) →
        (handleClient st fresh raw).written
          = ["Enter your username: ", "Server is full. Try again later.\n"])
  ∧ (∀ c, (handleClient st fresh raw).admitted = some c →
        (handleClient st fresh raw).st.clients.length ≤ MAX_CLIENTS) := by
  by_cases h1 : goLen (goTrim raw) < 2 ∨ 32 < goLen (goTrim raw)
  · have hc : handleClient st fresh raw
        = { st := st,
            written := ["Enter your username: ",
              "Username must be 2-32 characters.\n"],
            admitted := none } := by
      unfold handleClient
      rw [if_pos h1]
    rw [hc]
    exact ⟨fun _ => ⟨rfl, rfl⟩, fun _ h2 => absurd h1 h2,
      fun c hcontra => by cases hcontra⟩
  · by_cases h2 : MAX_CLIENTS ≤ st.clients.length
    · have hc : handleClient st fresh raw
          = { st := st,
              written := ["Enter your username: ",
                "Server is full. Try again later.\n"],
              admitted := none } := by
        unfold handleClient
        rw [if_neg h1, if_pos h2]
      rw [hc]
      exact ⟨fun _ => ⟨rfl, rfl⟩, fun _ _ => rfl,
        fun c hcontra => by cases hcontra⟩
    · have hc : handleClient st fresh raw
          = { st := enqueueTo ⟨fresh, goTrim raw⟩ (welcomeText (goTrim raw))
                (step st (Event.register ⟨fresh, goTrim raw⟩)),
              written := ["Enter your username: "],
              admitted := some ⟨fresh, goTrim raw⟩ } := by
        unfold handleClient
        rw [if_neg h1, if_neg h2]
      rw [hc]
      refine ⟨fun hfull => absurd hfull h2, fun hfull _ => absurd hfull h2,
        fun c _ => ?_⟩
      show (enqueueTo _ _ _).clients.length ≤ MAX_CLIENTS
      rw [enqueueTo_length]
      have h3 := step_register_length_le st ⟨fresh, goTrim raw⟩
      have h4 : st.clients.length < MAX_CLIENTS := Nat.lt_of_not_le h2
      unfold MAX_CLIENTS at h4 ⊢
      omega

/-- Witness for `capacity_check_nominal`: a full room of 50 placeholder
members turns dave away with the server-full line, and a registration into
the empty room respects the cap. -/
theorem capacity_check_nominal_witness :
    (handleClient
        ⟨(List.range 50).map (fun i => (⟨i, "u"⟩, [])), [], []⟩ 50 "dave").admitted
      = none
  ∧ (handleClient
        ⟨(List.range 50).map (fun i => (⟨i, "u"⟩, [])), [], []⟩ 50 "dave").written
      = ["Enter your username: ", "Server is full. Try again later.\n"]
  ∧ (handleClient initState 0 "dave").st.clients.length ≤ MAX_CLIENTS :=
  ⟨((capacity_check_nominal
      ⟨(List.range 50).map (fun i => (⟨i, "u"⟩, [])), [], []⟩ 50 "dave").1
        (by decide)).1,
   (capacity_check_nominal
      ⟨(List.range 50).map (fun i => (⟨i, "u"⟩, [])), [], []⟩ 50 "dave").2.1
        (by decide) (by decide),
   (capacity_check_nominal initState 0 "dave").2.2 ⟨0, "dave"⟩ (by decide)⟩

/-- Invariant backing the ordering guarantee: every live queue is a
subsequence of the global order in which the engine processed broadcast
texts. -/
def QueueInv (st : ChatServer) : Prop :=
  ∀ p ∈ st.clients, List.Sublist p.2 st.log

/-- A broadcast step preserves the ordering invariant. -/
theorem applyBroadcast_queueInv {st : ChatServer} (t : String)
    (h : QueueInv st) : QueueInv (applyBroadcast t st) := by
  intro p hp
  have hp2 : p ∈ (deliver t st.clients).1 := hp
  rw [deliver_fst] at hp2
  obtain ⟨q, hq, hsome⟩ := List.mem_filterMap.mp hp2
  by_cases hr : hasRoom q.2 = true
  · rw [if_pos hr] at hsome
    obtain rfl := Option.some.inj hsome
    show List.Sublist (q.2 ++ [t]) (st.log ++ [t])
    exact List.Sublist.append (h q hq) (List.Sublist.refl _)
  · rw [if_neg hr] at hsome
    cases hsome

/-- Adding a fresh client (empty queue) preserves the ordering invariant. -/
theorem addClient_queueInv {st : ChatServer} (c : Client)
    (h : QueueInv st) : QueueInv (addClient c st) := by
  unfold QueueInv addClient
  split
  · exact h
  · intro p hp
    show List.Sublist p.2 st.log
    rcases List.mem_append.mp hp with h1 | h1
    · exact h p h1
    · rcases List.mem_singleton.mp h1 with rfl
      exact List.nil_sublist _


/-- Removing a member preserves the ordering invariant. -/
theorem teardown_queueInv {st : ChatServer} (c : Client)
    (h : QueueInv st) : QueueInv (teardownIfMember c st) := by
  unfold QueueInv teardownIfMember
  split
  · intro p hp
    show List.Sublist p.2 st.log
    exact h p (List.mem_of_mem_filter hp)
  · exact h

/-- A roster refresh preserves the ordering invariant. -/
theorem sendUserList_queueInv {st : ChatServer}
    (h : QueueInv st) : QueueInv (sendUserList st) := by
  simp only [sendUserList]
  split
  · exact applyBroadcast_queueInv _ h
  · exact h

/-- Every event preserves the ordering invariant. -/
theorem step_queueInv {st : ChatServer} (e : Event)
    (h : QueueInv st) : QueueInv (step st e) := by
  cases e with
  | register c =>
    exact sendUserList_queueInv (applyBroadcast_queueInv _ (addClient_queueInv c h))
  | deregister c =>
    exact sendUserList_queueInv (applyBroadcast_queueInv _ (teardown_queueInv c h))
  | broadcast t =>
    exact applyBroadcast_queueInv _ h

/-- The ordering invariant holds in every reachable engine state. -/
theorem runEvents_queueInv (evs : List Event) : QueueInv (runEvents evs) := by
  suffices H : ∀ (l : List Event) (st : ChatServer),
      QueueInv st → QueueInv (l.foldl step st) by
    refine H evs initState ?_
    intro p hp
    cases hp
  intro l
  induction l with
  | nil => intro st h; exact h
  | cons e rest ih =>
    intro st h
    exact ih (step st e) (step_queueInv e h)

/-- C5: for every event sequence, the queues of any two Sessions still in
the live set are subsequences of one and the same global sequence — the
order in which the Dispatch Engine processed the broadcast texts (its
`log`) — so no recipient ever observes broadcast text out of that order. -/
theorem broadcast_global_order (evs : List Event) (c1 c2 : Client)
    (q1 q2 : List String)
    (h1 : (c1, q1) ∈ (runEvents evs).clients)
    (h2 : (c2, q2) ∈ (runEvents evs).clients) :
    List.Sublist q1 (runEvents evs).log
  ∧ List.Sublist q2 (runEvents evs).log :=
  ⟨runEvents_queueInv evs (c1, q1) h1, runEvents_queueInv evs (c2, q2) h2⟩

/-- Witness for `broadcast_global_order`: ann and bob register and a chat
line is broadcast; both resulting queues are subsequences of the engine's
processing order. -/
theorem broadcast_global_order_witness :
    List.Sublist
      [joinText "ann", rosterText ["ann"], joinText "bob",
        rosterText ["ann", "bob"], "hi"]
      (runEvents [Event.register ⟨0, "ann"⟩, Event.register ⟨1, "bob"⟩,
        Event.broadcast "hi"]).log
  ∧ List.Sublist [joinText "bob", rosterText ["ann", "bob"], "hi"]
      (runEvents [Event.register ⟨0, "ann"⟩, Event.register ⟨1, "bob"⟩,
        Event.broadcast "hi"]).log :=
  broadcast_global_order
    [Event.register ⟨0, "ann"⟩, Event.register ⟨1, "bob"⟩,
      Event.broadcast "hi"]
    ⟨0, "ann"⟩ ⟨1, "bob"⟩
    [joinText "ann", rosterText ["ann"], joinText "bob",
      rosterText ["ann", "bob"], "hi"]
    [joinText "bob", rosterText ["ann", "bob"], "hi"]
    (by decide) (by decide)

/-- The live-set keys of a state (the domain of `server.clients`). -/
def keysOf (st : ChatServer) : List Client := st.clients.map Prod.fst

/-- Well-formedness maintained by the engine: distinct live clients,
no client torn down twice, and no torn-down client still live. -/
def ClientsOk (st : ChatServer) : Prop :=
  (keysOf st).Nodup ∧ st.closed.Nodup ∧ ∀ c ∈ keysOf st, c ∉ st.closed

/-- The clients carried by the Register events of a sequence, in order. -/
def registersOf : List Event → List Client
  | [] => []
  | Event.register c :: es => c :: registersOf es
  | Event.deregister _ :: es => registersOf es
  | Event.broadcast _ :: es => registersOf es

/-- Structure of one fan-out pass over a duplicate-free live set: survivors
and dropped clients keep distinct keys drawn from the old keys, and no
client both survives and is dropped. -/
theorem deliver_disjoint (t : String) :
    ∀ l : List (Client × List String), (l.map Prod.fst).Nodup →
    ((deliver t l).1.map Prod.fst).Nodup
  ∧ ((deliver t l).2).Nodup
  ∧ (∀ c, c ∈ (deliver t l).1.map Prod.fst → c ∈ l.map Prod.fst)
  ∧ (∀ c, c ∈ (deliver t l).2 → c ∈ l.map Prod.fst)
  ∧ (∀ c, c ∈ (deliver t l).1.map Prod.fst → c ∉ (deliver t l).2) := by
  intro l
  induction l with
  | nil =>
    intro _
    refine ⟨List.nodup_nil, List.nodup_nil, ?_, ?_, ?_⟩ <;>
      intro c hc <;> simp [deliver] at hc
  | cons p rest ih =>
    intro h
    rw [List.map_cons, List.nodup_cons] at h
    obtain ⟨hp1, hrest⟩ := h
    obtain ⟨ih1, ih2, ih3, ih4, ih5⟩ := ih hrest
    by_cases hr : hasRoom p.2 = true
    · have hd : deliver t (p :: rest)
          = ((p.1, p.2 ++ [t]) :: (deliver t rest).1, (deliver t rest).2) := by
        simp [deliver, hr]
      rw [hd]
      refine ⟨?_, ih2, ?_, ?_, ?_⟩
      · rw [List.map_cons, List.nodup_cons]
        exact ⟨fun hc => hp1 (ih3 _ hc), ih1⟩
      · intro c hc
        rw [List.map_cons, List.mem_cons] at hc
        rcases hc with rfl | hc
        · exact List.mem_cons_self _ _
        · exact List.mem_cons_of_mem _ (ih3 c hc)
      · intro c hc
        exact List.mem_cons_of_mem _ (ih4 c hc)
      · intro c hc
        rw [List.map_cons, List.mem_cons] at hc
        rcases hc with rfl | hc
        · exact fun hmem => hp1 (ih4 _ hmem)
        · exact ih5 c hc
    · have hr2 : hasRoom p.2 = false := by
        cases hx : hasRoom p.2
        · rfl
        · exact absurd hx hr
      have hd : deliver t (p :: rest)
          = ((deliver t rest).1, p.1 :: (deliver t rest).2) := by
        simp [deliver, hr2]
      rw [hd]
      refine ⟨ih1, ?_, ?_, ?_, ?_⟩
      · rw [List.nodup_cons]
        exact ⟨fun hc => hp1 (ih4 _ hc), ih2⟩
      · intro c hc
        exact List.mem_cons_of_mem _ (ih3 c hc)
      · intro c hc
        rw [List.mem_cons] at hc
        rcases hc with rfl | hc
        · exact List.mem_cons_self _ _
        · exact List.mem_cons_of_mem _ (ih4 c hc)
      · intro c hc hmem
        rw [List.mem_cons] at hmem
        rcases hmem with rfl | hmem
        · exact hp1 (ih3 _ hc)
        · exact ih5 c hc hmem

/-- A broadcast step preserves well-formedness, and a client that was
neither live nor torn down stays that way through it. -/
theorem applyBroadcast_clientsOk {st : ChatServer} (t : String)
    (h : ClientsOk st) :
    ClientsOk (applyBroadcast t st)
  ∧ ∀ x, x ∉ keysOf st → x ∉ st.closed →
      x ∉ keysOf (applyBroadcast t st) ∧ x ∉ (applyBroadcast t st).closed := by
  obtain ⟨h1, h2, h3⟩ := h
  obtain ⟨d1, d2, d3, d4, d5⟩ := deliver_disjoint t st.clients h1
  have hkeys : keysOf (applyBroadcast t st)
      = (deliver t st.clients).1.map Prod.fst := rfl
  have hclosed : (applyBroadcast t st).closed
      = st.closed ++ (deliver t st.clients).2 := rfl
  refine ⟨⟨?_, ?_, ?_⟩, ?_⟩
  · rw [hkeys]; exact d1
  · rw [hclosed]
    exact List.Nodup.append h2 d2 (fun a ha1 ha2 => h3 a (d4 a ha2) ha1)
  · intro c hc
    rw [hkeys] at hc
    rw [hclosed]
    intro hmem
    rcases List.mem_append.mp hmem with hm | hm
    · exact h3 c (d3 c hc) hm
    · exact d5 c hc hm
  · intro x hx1 hx2
    constructor
    · rw [hkeys]; intro hc; exact hx1 (d3 x hc)
    · rw [hclosed]; intro hc
      rcases List.mem_append.mp hc with hm | hm
      · exact hx2 hm
      · exact hx1 (d4 x hm)

/-- A roster refresh preserves well-formedness and non-involvement. -/
theorem sendUserList_clientsOk {st : ChatServer} (h : ClientsOk st) :
    ClientsOk (sendUserList st)
  ∧ ∀ x, x ∉ keysOf st → x ∉ st.closed →
      x ∉ keysOf (sendUserList st) ∧ x ∉ (sendUserList st).closed := by
  simp only [sendUserList]
  split
  · exact applyBroadcast_clientsOk _ h
  · exact ⟨h, fun x hx1 hx2 => ⟨hx1, hx2⟩⟩

/-- Teardown of a member preserves well-formedness (the membership guard
keeps the close trace duplicate-free), and a client that was neither live
nor torn down stays that way. -/
theorem teardown_clientsOk {st : ChatServer} (c : Client) (h : ClientsOk st) :
    ClientsOk (teardownIfMember c st)
  ∧ ∀ x, x ∉ keysOf st → x ∉ st.closed →
      x ∉ keysOf (teardownIfMember c st) ∧ x ∉ (teardownIfMember c st).closed := by
  obtain ⟨h1, h2, h3⟩ := h
  unfold teardownIfMember
  split
  case isTrue hmem =>
    have hcmem : c ∈ keysOf st := by
      obtain ⟨p, hp, hpc⟩ := List.any_eq_true.mp hmem
      have hpc2 : p.1 = c := by simpa using hpc
      exact hpc2 ▸ List.mem_map_of_mem Prod.fst hp
    have hkeys' : ∀ x,
        x ∈ (st.clients.filter (fun p => !(p.1 = c : Bool))).map Prod.fst →
        x ∈ keysOf st ∧ x ≠ c := by
      intro x hx
      obtain ⟨p, hp, rfl⟩ := List.mem_map.mp hx
      obtain ⟨hpmem, hpcond⟩ := List.mem_filter.mp hp
      refine ⟨List.mem_map_of_mem Prod.fst hpmem, ?_⟩
      simpa using hpcond
    refine ⟨⟨?_, ?_, ?_⟩, ?_⟩
    · show ((st.clients.filter (fun p => !(p.1 = c : Bool))).map Prod.fst).Nodup
      have hsub : List.Sublist
          ((st.clients.filter (fun p => !(p.1 = c : Bool))).map Prod.fst)
          (keysOf st) := List.Sublist.map _ (List.filter_sublist _)
      exact h1.sublist hsub
    · show (st.closed ++ [c]).Nodup
      refine List.Nodup.append h2 (List.nodup_singleton c) ?_
      intro a ha hb
      rw [List.mem_singleton] at hb
      subst hb
      exact h3 a hcmem ha
    · intro x hx
      obtain ⟨hxk, hxc⟩ := hkeys' x hx
      intro hcon
      rcases List.mem_append.mp hcon with hm | hm
      · exact h3 x hxk hm
      · exact hxc (List.mem_singleton.mp hm)
    · intro x hx1 hx2
      constructor
      · intro hc
        exact hx1 (hkeys' x hc).1
      · intro hc
        rcases List.mem_append.mp hc with hm | hm
        · exact hx2 hm
        · exact hx1 ((List.mem_singleton.mp hm) ▸ hcmem)
  case isFalse =>
    exact ⟨⟨h1, h2, h3⟩, fun x hx1 hx2 => ⟨hx1, hx2⟩⟩

/-- Registering a fresh client preserves well-formedness, and any other
uninvolved client stays uninvolved. -/
theorem addClient_clientsOk {st : ChatServer} (c : Client) (h : ClientsOk st)
    (hc1 : c ∉ keysOf st) (hc2 : c ∉ st.closed) :
    ClientsOk (addClient c st)
  ∧ ∀ x, x ∉ keysOf st → x ∉ st.closed → x ≠ c →
      x ∉ keysOf (addClient c st) ∧ x ∉ (addClient c st).closed := by
  obtain ⟨h1, h2, h3⟩ := h
  have hcond : ¬ (st.clients.any (fun p => p.1 = c) = true) := by
    intro hany
    obtain ⟨p, hp, hpc⟩ := List.any_eq_true.mp hany
    have hpc2 : p.1 = c := by simpa using hpc
    exact hc1 (hpc2 ▸ List.mem_map_of_mem Prod.fst hp)
  unfold addClient
  rw [if_neg hcond]
  have hk : (st.clients ++ [(c, ([] : List String))]).map Prod.fst
      = keysOf st ++ [c] := by
    simp [keysOf]
  refine ⟨⟨?_, h2, ?_⟩, ?_⟩
  · show ((st.clients ++ [(c, ([] : List String))]).map Prod.fst).Nodup
    rw [hk]
    refine List.Nodup.append h1 (List.nodup_singleton c) ?_
    intro a ha hb
    rw [List.mem_singleton] at hb
    subst hb
    exact hc1 ha
  · intro a ha
    rw [show keysOf { st with clients := st.clients ++ [(c, ([] : List String))] }
        = keysOf st ++ [c] from hk] at ha
    rcases List.mem_append.mp ha with hm | hm
    · exact h3 a hm
    · exact (List.mem_singleton.mp hm) ▸ hc2
  · intro x hx1 hx2 hxc
    constructor
    · intro hc
      rw [show keysOf { st with clients := st.clients ++ [(c, ([] : List String))] }
          = keysOf st ++ [c] from hk] at hc
      rcases List.mem_append.mp hc with hm | hm
      · exact hx1 hm
      · exact hxc (List.mem_singleton.mp hm)
    · exact hx2

/-- Freshness condition under which an event sequence is the image of real
executions: every client carried by a future Register event is a distinct
fresh allocation (Go allocates a new `Client` per connection, line 128), so
it is neither live nor already torn down. -/
def EvFresh (st : ChatServer) (evs : List Event) : Prop :=
  (registersOf evs).Nodup ∧
    ∀ c ∈ registersOf evs, c ∉ keysOf st ∧ c ∉ st.closed

/-- One engine step preserves well-formedness and freshness of the
remaining events. -/
theorem step_ok {st : ChatServer} {e : Event} {evs : List Event}
    (h : ClientsOk st) (hf : EvFresh st (e :: evs)) :
    ClientsOk (step st e) ∧ EvFresh (step st e) evs := by
  obtain ⟨hfn, hff⟩ := hf
  cases e with
  | register c =>
    have hrc : registersOf (Event.register c :: evs)
        = c :: registersOf evs := rfl
    rw [hrc] at hfn hff
    rw [List.nodup_cons] at hfn
    obtain ⟨hcn, hfn2⟩ := hfn
    obtain ⟨hc1, hc2⟩ := hff c (List.mem_cons_self _ _)
    obtain ⟨hok1, hfr1⟩ := addClient_clientsOk c h hc1 hc2
    obtain ⟨hok2, hfr2⟩ := applyBroadcast_clientsOk (joinText c.name) hok1
    obtain ⟨hok3, hfr3⟩ := sendUserList_clientsOk hok2
    refine ⟨hok3, hfn2, ?_⟩
    intro d hd
    obtain ⟨hd1, hd2⟩ := hff d (List.mem_cons_of_mem _ hd)
    have hdc : d ≠ c := fun hdc => hcn (hdc ▸ hd)
    obtain ⟨he1, he2⟩ := hfr1 d hd1 hd2 hdc
    obtain ⟨he3, he4⟩ := hfr2 d he1 he2
    exact hfr3 d he3 he4
  | deregister c =>
    have hrc : registersOf (Event.deregister c :: evs) = registersOf evs := rfl
    rw [hrc] at hfn hff
    obtain ⟨hok1, hfr1⟩ := teardown_clientsOk c h
    obtain ⟨hok2, hfr2⟩ := applyBroadcast_clientsOk (leaveText c.name) hok1
    obtain ⟨hok3, hfr3⟩ := sendUserList_clientsOk hok2
    refine ⟨hok3, hfn, ?_⟩
    intro d hd
    obtain ⟨hd1, hd2⟩ := hff d hd
    obtain ⟨he1, he2⟩ := hfr1 d hd1 hd2
    obtain ⟨he3, he4⟩ := hfr2 d he1 he2
    exact hfr3 d he3 he4
  | broadcast t =>
    have hrc : registersOf (Event.broadcast t :: evs) = registersOf evs := rfl
    rw [hrc] at hfn hff
    obtain ⟨hok2, hfr2⟩ := applyBroadcast_clientsOk t h
    refine ⟨hok2, hfn, ?_⟩
    intro d hd
    obtain ⟨hd1, hd2⟩ := hff d hd
    exact hfr2 d hd1 hd2

/-- Every engine run from the initial state over a sequence whose Register
events carry pairwise distinct fresh clients ends well-formed; in
particular its close trace is duplicate-free. -/
theorem runEvents_clientsOk (evs : List Event)
    (h : (registersOf evs).Nodup) : ClientsOk (runEvents evs) := by
  suffices H : ∀ (l : List Event) (st : ChatServer),
      ClientsOk st → EvFresh st l → ClientsOk (l.foldl step st) by
    refine H evs initState ⟨List.nodup_nil, List.nodup_nil, ?_⟩ ⟨h, ?_⟩
    · intro c hc
      simp [keysOf, initState] at hc
    · intro c _
      refine ⟨?_, ?_⟩ <;> intro hc <;> simp [keysOf, initState] at hc
  intro l
  induction l with
  | nil =>
    intro st hok _
    exact hok
  | cons e rest ih =>
    intro st hok hf
    obtain ⟨hok2, hf2⟩ := step_ok hok hf
    exact ih (step st e) hok2 hf2

/-- Counterexample to C8: alice registers and is deregistered; the engine
closes her connection once (at teardown), and the outbound pump, released
by the closed queue, runs its own deferred close — the handle is closed
twice, and one of the closes is not performed by the Dispatch Engine. -/
theorem conn_close_once_cex :
    totalCloses (runEvents [Event.register ⟨0, "alice"⟩,
        Event.deregister ⟨0, "alice"⟩]) ⟨0, "alice"⟩ = 2
  ∧ pumpCloses (runEvents [Event.register ⟨0, "alice"⟩,
        Event.deregister ⟨0, "alice"⟩]) ⟨0, "alice"⟩ = 1 := by
  decide

/-- C8 amended: over any event sequence whose Register events carry
distinct fresh Sessions, the Dispatch Engine closes each Session's handle
at most once (the membership guard prevents an engine-side double close);
but teardown is not exclusive to the engine: the outbound pump's deferred
close fires too once the engine closes the queue, so (absent network write
errors) a torn-down Session's handle is closed exactly twice — once by the
engine, once by the pump — and an untorn Session's handle not at all. -/
theorem conn_closed_engine_once_pump_again (evs : List Event) (c : Client)
    (h : (registersOf evs).Nodup) :
    engineCloses (runEvents evs) c ≤ 1
  ∧ (c ∈ (runEvents evs).closed → totalCloses (runEvents evs) c = 2)
  ∧ (c ∉ (runEvents evs).closed → totalCloses (runEvents evs) c = 0) := by
  have hok := runEvents_clientsOk evs h
  have hnd : (runEvents evs).closed.Nodup := hok.2.1
  have hcount : (runEvents evs).closed.count c ≤ 1 :=
    List.nodup_iff_count_le_one.mp hnd c
  refine ⟨hcount, ?_, ?_⟩
  · intro hmem
    have h1 : 0 < (runEvents evs).closed.count c :=
      List.count_pos_iff.mpr hmem
    have h2 : (runEvents evs).closed.count c = 1 := Nat.le_antisymm hcount h1
    unfold totalCloses engineCloses pumpCloses
    rw [h2, if_pos hmem]
  · intro hmem
    unfold totalCloses engineCloses pumpCloses
    rw [List.count_eq_zero.mpr hmem, if_neg hmem]

/-- Witness for `conn_closed_engine_once_pump_again`: ann's register and
deregister form a duplicate-free sequence, and her handle ends up closed
exactly twice. -/
theorem conn_closed_engine_once_pump_again_witness :
    totalCloses (runEvents [Event.register ⟨1, "ann"⟩,
        Event.deregister ⟨1, "ann"⟩]) ⟨1, "ann"⟩ = 2 :=
  (conn_closed_engine_once_pump_again
      [Event.register ⟨1, "ann"⟩, Event.deregister ⟨1, "ann"⟩]
      ⟨1, "ann"⟩ (by decide)).2.1 (by decide)
